import Mathlib

/-!
Verification of the Ingeteam modbus register decode/aggregation engine.

Definitions are shallow embeddings of the Python sources:
- decode_signed, u32_from_words_le, battery_derive, pv currents, system
  efficiency, configuration staleness and the schedule setpoint write are
  taken from custom_components/ingeteam_modbus/__init__.py;
- the register map and block planner from model_map.py;
- the block reader, value validation and poll aggregation from
  modbus_client.py.
Python floats are modelled as rationals, machine integers as Nat/Int with
explicit two-complement arithmetic.
-/

namespace Ingeteam

/-! ## Value decoding (from IngeteamModbusHub in __init__.py) -/

/-- Embedding of IngeteamModbusHub._decode_signed: decode a 16-bit signed
integer (twos complement). -/
def decode_signed (value : Nat) : Int :=
  if value &&& 0x8000 ≠ 0 then (value : Int) - 0x10000 else (value : Int)

/-- Modelled from the spec: the 16-bit twos-complement encoding of an
integer in the range -32768..32767 (the inverse the spec asserts for
decode_signed; the repository itself never encodes signed values). -/
def encode16 (x : Int) : Nat := (x % 65536).toNat

/-- Embedding of IngeteamModbusHub._u32_from_words_le: combine two 16-bit
registers into a uint32, low word first. -/
def u32_from_words_le (registers : List Nat) (start_index : Nat) : Nat :=
  let low := registers.getD start_index 0
  let high := registers.getD (start_index + 1) 0
  (high <<< 16) ||| low

/-- Embedding of the uint32 branch of ModbusClient._extract_value in
modbus_client.py: big-endian word order, high word first. -/
def u32_from_words_be (registers : List Nat) (offset : Nat) : Nat :=
  let high := registers.getD offset 0
  let low := registers.getD (offset + 1) 0
  (high <<< 16) ||| low

/-! ## Battery power logic (read_modbus_data lines 468-495) -/

structure BatteryData where
  battery_current : ℚ
  battery_power : ℚ
  battery_charging_power : ℚ
  battery_discharging_power : ℚ
deriving DecidableEq, Repr

/-- Embedding of the battery deadband / sign-split logic of
read_modbus_data: inputs are the already decoded battery voltage,
battery current and the scaled raw power register 21. -/
def battery_derive (battery_voltage battery_current_in raw_power_21 : ℚ) :
    BatteryData :=
  let calculated_power_0 : ℚ := battery_voltage * battery_current_in
  let deadband : Prop := raw_power_21 = 0 ∨ |battery_current_in| < 1/2
  let calculated_power : ℚ := if deadband then 0 else calculated_power_0
  let battery_current : ℚ := if deadband then 0 else battery_current_in
  if battery_current > 0 then
    ⟨battery_current, |calculated_power|, 0, |calculated_power|⟩
  else if battery_current < 0 then
    ⟨battery_current, -|calculated_power|, |calculated_power|, 0⟩
  else
    ⟨battery_current, 0, 0, 0⟩

/-- Restatement of the battery sign rule in the words of the spec, for
comparison with battery_derive. -/
def battery_spec (V I P_raw : ℚ) : BatteryData :=
  if P_raw = 0 ∨ |I| < 1/2 then ⟨0, 0, 0, 0⟩
  else if I > 0 then ⟨I, |V * I|, 0, |V * I|⟩
  else if I < 0 then ⟨I, -|V * I|, |V * I|, 0⟩
  else ⟨I, 0, 0, 0⟩

/-- Embedding of the register-level battery pipeline: registers 16, 19 and
21 feed the derivation (voltage scale 0.1, current scale 0.01, power
scale 0.1). -/
def battery_from_registers (reg16 reg19 reg21 : Nat) : BatteryData :=
  battery_derive ((reg16 : ℚ) / 10) ((decode_signed reg19 : ℚ) / 100)
    ((decode_signed reg21 : ℚ) / 10)

/-! ## PV currents and system efficiency (read_modbus_data lines 518-535
and 765-776) -/

/-- Embedding of the guarded PV current computation: power divided by
voltage only when the voltage is strictly positive, otherwise 0. -/
def pv_current_calc (pv_power pv_voltage : ℚ) : ℚ :=
  if pv_voltage > 0 then pv_power / pv_voltage else 0

/-- Embedding of pv1_voltage: register 38 scaled by 0.1. -/
def pv1_voltage (registers : List Nat) : ℚ := (registers.getD 38 0 : ℚ) / 10

/-- Embedding of pv1_power: register 41 scaled by 0.1. -/
def pv1_power (registers : List Nat) : ℚ := (registers.getD 41 0 : ℚ) / 10

/-- Embedding of pv2_voltage: register 42 scaled by 0.1. -/
def pv2_voltage (registers : List Nat) : ℚ := (registers.getD 42 0 : ℚ) / 10

/-- Embedding of pv2_power: register 45 scaled by 0.1. -/
def pv2_power (registers : List Nat) : ℚ := (registers.getD 45 0 : ℚ) / 10

/-- Embedding of pv1_current from read_modbus_data. -/
def pv1_current (registers : List Nat) : ℚ :=
  pv_current_calc (pv1_power registers) (pv1_voltage registers)

/-- Embedding of pv2_current from read_modbus_data. -/
def pv2_current (registers : List Nat) : ℚ :=
  pv_current_calc (pv2_power registers) (pv2_voltage registers)

/-- Embedding of the system efficiency computation of read_modbus_data:
the ratio (pv_total_power + battery_discharging_power) / total_loads_power
times 100 when total_loads_power is positive, 0 otherwise.  The source
applies no clamping (its comment states the value can exceed 100). -/
def system_efficiency (pv_power bat_discharge loads_power : ℚ) : ℚ :=
  if loads_power > 0 then (pv_power + bat_discharge) / loads_power * 100
  else 0

/-- Restatement of the efficiency formula in the words of the spec (with
the claimed clamp at 100), for comparison with system_efficiency. -/
def system_efficiency_spec (pv_power bat_discharge loads_power : ℚ) : ℚ :=
  if loads_power > 0 then
    min ((pv_power + bat_discharge) / loads_power * 100) 100
  else 0

/-! ## Schedule setpoint write (set_schedule_type in __init__.py) -/

/-- Embedding of the packed-word computation in set_schedule_type: bit 0
fixed at 1, bits 4-5 the schedule-1 type, bits 6-7 the schedule-2 type,
the schedule not being written keeping its bits from the word just
read. -/
def schedule_new_val (current_val schedule_index value : Nat) : Nat :=
  let sch1_current := (current_val >>> 4) &&& 0x03
  let sch2_current := (current_val >>> 6) &&& 0x03
  let target_sch1 := if schedule_index = 1 then value else sch1_current
  let target_sch2 := if schedule_index = 1 then sch2_current else value
  1 ||| (target_sch1 <<< 4) ||| (target_sch2 <<< 6)

/-- Outcome of one set_schedule_type call: the returned flag, the
resulting staleness timer, and the register write performed (address and
value), if any. -/
structure WriteOutcome where
  ok : Bool
  last_config_update : ℚ
  written : Option (Nat × Nat)
deriving DecidableEq

/-- Embedding of the _write_modbus body of set_schedule_type: read
holding register 25 (read_reg_25 is the transport outcome), compute the
new packed word, skip the write when it equals the current word,
otherwise write it (write_ok is the transport outcome) and on success
reset the staleness timer to 0. -/
def set_schedule_type (read_reg_25 : Option Nat) (write_ok : Bool)
    (schedule_index value : Nat) (last_config_update : ℚ) : WriteOutcome :=
  match read_reg_25 with
  | none => ⟨false, last_config_update, none⟩
  | some current_val =>
    let new_val := schedule_new_val current_val schedule_index value
    if new_val = current_val then ⟨true, last_config_update, none⟩
    else if write_ok then ⟨true, 0, some (25, new_val)⟩
    else ⟨false, last_config_update, none⟩

/-! ## Holding-register configuration staleness (read_modbus_data lines
411-422 and 651-687) -/

/-- Embedding of the staleness test guarding the holding-register read:
the configuration block is re-read only when more than 60 seconds have
elapsed since the last successful read. -/
def config_read_due (now last_config_update : ℚ) : Bool :=
  decide (now - last_config_update > 60)

/-- The decoded configuration entries of the snapshot (the config_* keys
written under the holding_regs guard of read_modbus_data). -/
structure ConfigValues where
  config_soc_max : Nat
  config_soc_min : Nat
  config_soc_recovery : Nat
  config_soc_recx : Nat
  config_soc_descx : Nat
  config_soc_ac_charging_power : Nat
  config_soc_ac_charging_schedule1_type : String
  config_soc_ac_charging_soc_grid1 : Nat
  config_soc_ac_charging_time_start1 : String
  config_soc_ac_charging_time_end1 : String
  config_soc_ac_charging_schedule2_type : String
  config_soc_ac_charging_soc_grid2 : Nat
  config_soc_ac_charging_time_start2 : String
  config_soc_ac_charging_time_end2 : String
deriving DecidableEq

/-- Embedding of the get_holding helper of read_modbus_data: index into
the holding block, 0 when out of range. -/
def get_holding (holding_regs : List Nat) (offset : Nat) : Nat :=
  if offset < holding_regs.length then holding_regs.getD offset 0 else 0

/-- Zero-padding to two digits, as the Python format string 02d does. -/
def pad2 (n : Nat) : String :=
  if n < 10 then "0" ++ toString n else toString n

/-- Embedding of the decode_time helper of read_modbus_data: a packed
clock word renders as HH:MM. -/
def decode_time (val : Nat) : String :=
  pad2 ((val >>> 8) &&& 0xFF) ++ ":" ++ pad2 (val &&& 0xFF)

/-- Embedding of the SCHEDULE_TYPES lookup of read_modbus_data. -/
def schedule_type_name (n : Nat) : String :=
  if n = 0 then "Desactivado"
  else if n = 1 then "Toda la semana"
  else if n = 2 then "Entre semana (L-V)"
  else if n = 3 then "Fin de semana (S-D)"
  else "Desconocido (" ++ toString n ++ ")"

/-- Embedding of the configuration decode of read_modbus_data (lines
651-687): every config_* entry recomputed from the holding block. -/
def apply_config (holding_regs : List Nat) : ConfigValues :=
  let reg_25 := get_holding holding_regs 25
  let sch1_type := (reg_25 >>> 4) &&& 0x03
  let sch2_type := (reg_25 >>> 6) &&& 0x03
  { config_soc_max := get_holding holding_regs 14
    config_soc_min := get_holding holding_regs 28
    config_soc_recovery := get_holding holding_regs 27
    config_soc_recx := get_holding holding_regs 29
    config_soc_descx := get_holding holding_regs 30
    config_soc_ac_charging_power := get_holding holding_regs 23
    config_soc_ac_charging_schedule1_type := schedule_type_name sch1_type
    config_soc_ac_charging_soc_grid1 := get_holding holding_regs 32
    config_soc_ac_charging_time_start1 := decode_time (get_holding holding_regs 33)
    config_soc_ac_charging_time_end1 := decode_time (get_holding holding_regs 34)
    config_soc_ac_charging_schedule2_type := schedule_type_name sch2_type
    config_soc_ac_charging_soc_grid2 := get_holding holding_regs 35
    config_soc_ac_charging_time_start2 := decode_time (get_holding holding_regs 36)
    config_soc_ac_charging_time_end2 := decode_time (get_holding holding_regs 37) }

/-- The cross-cycle hub state relevant to the configuration block: the
staleness timer and the config entries currently in the snapshot. -/
structure ConfigState where
  last_config_update : ℚ
  config : ConfigValues
deriving DecidableEq

/-- Embedding of the configuration part of one poll cycle: when the
staleness test fires, read the holding block (holding_response is the
transport outcome); on failure keep everything, on success update the
timer and, when the block is nonempty, recompute the config entries. -/
def poll_config_step (st : ConfigState) (now : ℚ)
    (holding_response : Option (List Nat)) : ConfigState :=
  if now - st.last_config_update > 60 then
    match holding_response with
    | none => st
    | some regs =>
      if regs.isEmpty then { st with last_config_update := now }
      else { last_config_update := now, config := apply_config regs }
  else st

/-- A sequence of poll cycles acting on the configuration state. -/
def poll_config_run (st : ConfigState)
    (steps : List (ℚ × Option (List Nat))) : ConfigState :=
  steps.foldl (fun s p => poll_config_step s p.1 p.2) st

/-! ## Register map model (model_map.py) -/

/-- Embedding of the DataType enum. -/
inductive DataType
  | uint16
  | int16
  | uint32
  | int32
deriving DecidableEq

/-- Embedding of the TableType enum. -/
inductive TableType
  | holding
  | input
deriving DecidableEq

/-- Embedding of the Register dataclass (the fields the decode engine
reads; signed and description are never consulted by it). -/
structure Register where
  name : String
  address : Nat
  data_type : DataType
  scale : ℚ := 1
  unit : Option String := none
  table : TableType := TableType.input
deriving DecidableEq

/-- Embedding of Register.register_count: two registers for the 32-bit
types, one otherwise. -/
def Register.register_count (r : Register) : Nat :=
  match r.data_type with
  | DataType.uint32 => 2
  | DataType.int32 => 2
  | _ => 1

/-- Embedding of the RegisterBlock dataclass. -/
structure RegisterBlock where
  start_address : Nat
  count : Nat
  registers : List Register
  table : TableType
deriving DecidableEq

/-- Embedding of RegisterBlock.end_address. -/
def RegisterBlock.end_address (b : RegisterBlock) : Nat :=
  b.start_address + b.count - 1

/-- The string value of a TableType, as used in error messages. -/
def table_value : TableType → String
  | TableType.holding => "holding"
  | TableType.input => "input"

/-! ## Block reading and validation (modbus_client.py) -/

/-- Embedding of the ReadResult dataclass; data is the name-to-value
dictionary in insertion order. -/
structure ReadResult where
  success : Bool
  data : List (String × ℚ)
  error : Option String := none
deriving DecidableEq

/-- Embedding of ModbusClient._extract_value: typed extraction at an
offset, none where the Python raises for a truncated 32-bit pair or a
missing word. -/
def extract_value (registers : List Nat) (offset : Nat) (r : Register) :
    Option Int :=
  match r.data_type with
  | DataType.uint16 => (registers[offset]?).map (fun w => (w : Int))
  | DataType.int16 => (registers[offset]?).map decode_signed
  | DataType.uint32 =>
    match registers[offset]?, registers[offset + 1]? with
    | some high_word, some low_word =>
      some (((high_word <<< 16) ||| low_word : Nat) : Int)
    | _, _ => none
  | DataType.int32 =>
    match registers[offset]?, registers[offset + 1]? with
    | some high_word, some low_word =>
      let value : Nat := (high_word <<< 16) ||| low_word
      some (if value &&& 0x80000000 ≠ 0 then (value : Int) - 0x100000000
        else (value : Int))
    | _, _ => none

/-- Embedding of the scaling step of ModbusClient.read_block: multiply by
the scale when it differs from 1. -/
def scaled_value (v : Int) (r : Register) : ℚ :=
  if r.scale ≠ 1 then (v : ℚ) * r.scale else (v : ℚ)

/-- Embedding of ModbusClient._validate_value: unit-keyed physical
plausibility bounds; units other than the six listed are always valid. -/
def validate_value (r : Register) (value : ℚ) : Bool :=
  if r.unit = some "V" then decide (-1000 ≤ value ∧ value ≤ 10000)
  else if r.unit = some "A" then decide (-10000 ≤ value ∧ value ≤ 10000)
  else if r.unit = some "W" then decide (-1000000 ≤ value ∧ value ≤ 1000000)
  else if r.unit = some "%" then decide (-10 ≤ value ∧ value ≤ 110)
  else if r.unit = some "°C" then decide (-50 ≤ value ∧ value ≤ 150)
  else if r.unit = some "Hz" then decide (40 ≤ value ∧ value ≤ 70)
  else true

/-- The decoded, scaled value a member register yields from a block
response: none when the offset is outside the returned words or the
extraction fails (both skipped by read_block). -/
def decoded_value (block : RegisterBlock) (registers : List Nat)
    (r : Register) : Option ℚ :=
  let offset : Int := (r.address : Int) - (block.start_address : Int)
  if offset < 0 ∨ (registers.length : Int) ≤ offset then none
  else (extract_value registers offset.toNat r).map (fun v => scaled_value v r)

/-- Embedding of ModbusClient.read_block given the transport outcome for
the block: a failed transport read gives a failed result, otherwise every
member register is decoded and kept only when validation passes. -/
def read_block (block : RegisterBlock) (response : Option (List Nat)) :
    ReadResult :=
  match response with
  | none =>
    ⟨false, [], some ("Failed to read " ++ table_value block.table ++
      " block at " ++ toString block.start_address)⟩
  | some registers =>
    let data := block.registers.foldl (fun acc r =>
      match decoded_value block registers r with
      | none => acc
      | some value =>
        if validate_value r value then acc ++ [(r.name, value)] else acc) []
    ⟨true, data, none⟩

/-- The data a block contributes to the poll: its decoded values when the
read succeeded, nothing otherwise. -/
def block_data (p : RegisterBlock × Option (List Nat)) : List (String × ℚ) :=
  if (read_block p.1 p.2).success then (read_block p.1 p.2).data else []

/-- The error a block contributes to the poll: its error message when the
read failed, nothing otherwise. -/
def block_err (p : RegisterBlock × Option (List Nat)) : List String :=
  if (read_block p.1 p.2).success then []
  else [(read_block p.1 p.2).error.getD ""]

/-- One iteration of the accumulation loop of
ModbusClient.read_register_map. -/
def poll_step (acc : List (String × ℚ) × List String)
    (p : RegisterBlock × Option (List Nat)) :
    List (String × ℚ) × List String :=
  let result := read_block p.1 p.2
  if result.success then (acc.1 ++ result.data, acc.2)
  else (acc.1, acc.2 ++ [result.error.getD ""])

/-- Embedding of the accumulation loop of ModbusClient.read_register_map:
merge the data of successful blocks, record the errors of failed ones. -/
def poll_fold (pairs : List (RegisterBlock × Option (List Nat))) :
    List (String × ℚ) × List String :=
  pairs.foldl poll_step ([], [])

/-- A one-register block used as a concrete test vector: a voltage
register at address 0. -/
def vreg : Register :=
  { name := "v", address := 0, data_type := DataType.uint16, scale := 1,
    unit := some "V", table := TableType.input }

/-- The block holding vreg alone. -/
def vblock : RegisterBlock :=
  { start_address := 0, count := 1, registers := [vreg],
    table := TableType.input }

/-- Embedding of ModbusClient.read_register_map over the per-block
transport outcomes: success means at least some data was merged. -/
def read_register_map (pairs : List (RegisterBlock × Option (List Nat))) :
    ReadResult :=
  let z := poll_fold pairs
  ⟨decide (0 < z.1.length), z.1,
    if z.2.isEmpty then none else some (String.intercalate "; " z.2)⟩

/-! ## Block planner (RegisterMap.get_blocks in model_map.py) -/

/-- The sort key of the block planner: registers ordered by address; the
Python sort is stable, as is mergeSort. -/
def addr_le (a b : Register) : Bool := decide (a.address ≤ b.address)

/-- The running planner state: the closed blocks so far and the current
open block as its start address, running span end and member list. -/
structure PlanState where
  blocks : List RegisterBlock
  cur : Option (Nat × Nat × List Register)
deriving DecidableEq

/-- One iteration of the greedy grouping loop of get_blocks: merge the
register into the current block when it starts within max_gap of the
running span end and would keep the span within max_block_size,
otherwise close the current block and open a new one. -/
def plan_step (max_block_size max_gap : Nat) (table : TableType)
    (st : PlanState) (reg : Register) : PlanState :=
  let reg_start := reg.address
  let reg_end := reg.address + reg.register_count - 1
  match st.cur with
  | none => ⟨st.blocks, some (reg_start, reg_end, [reg])⟩
  | some (s, e, ms) =>
    if (reg_start : Int) - (e : Int) ≤ (max_gap : Int) ∧
        (reg_end : Int) - (s : Int) + 1 ≤ (max_block_size : Int) then
      ⟨st.blocks, some (s, max e reg_end, ms ++ [reg])⟩
    else
      ⟨st.blocks ++ [⟨s, e - s + 1, ms, table⟩], some (reg_start, reg_end, [reg])⟩

/-- Close the open block at the end of one table pass of get_blocks. -/
def plan_finish (table : TableType) (st : PlanState) : List RegisterBlock :=
  match st.cur with
  | none => st.blocks
  | some (s, e, ms) => st.blocks ++ [⟨s, e - s + 1, ms, table⟩]

/-- The grouping pass of get_blocks over an already sorted register
list. -/
def plan_sorted (max_block_size max_gap : Nat) (table : TableType)
    (regs : List Register) : List RegisterBlock :=
  plan_finish table
    (regs.foldl (plan_step max_block_size max_gap table) ⟨[], none⟩)

/-- One table pass of get_blocks: stable-sort by address, then group
greedily. -/
def plan_table (max_block_size max_gap : Nat) (table : TableType)
    (regs : List Register) : List RegisterBlock :=
  plan_sorted max_block_size max_gap table (regs.mergeSort addr_le)

/-- Embedding of RegisterMap.get_blocks: partition the registers by
table (holding first, as the Python loop does), sort each partition by
address and group greedily into read blocks. -/
def get_blocks (regs : List Register) (max_block_size max_gap : Nat) :
    List RegisterBlock :=
  plan_table max_block_size max_gap TableType.holding
      (regs.filter (fun r => decide (r.table = TableType.holding))) ++
    plan_table max_block_size max_gap TableType.input
      (regs.filter (fun r => ! decide (r.table = TableType.holding)))

/-- The running span end over a member list, starting from e. -/
def run_end (e : Nat) (l : List Register) : Nat :=
  l.foldl (fun acc r => max acc (r.address + r.register_count - 1)) e

/-- The within-block gap condition the planner enforces: each member
after the first starts at most max_gap beyond the running span end of
the members before it. -/
def gap_ok (max_gap : Nat) : Nat → List Register → Bool
  | _, [] => true
  | e, r :: rs =>
    decide (r.address ≤ e + max_gap) &&
      gap_ok max_gap (max e (r.address + r.register_count - 1)) rs

/-- The gap condition for a whole block. -/
def block_gap_ok (max_gap : Nat) (b : RegisterBlock) : Bool :=
  match b.registers with
  | [] => true
  | r :: rs => gap_ok max_gap (r.address + r.register_count - 1) rs

/-- Every member span lies within the block span. -/
def block_ok (b : RegisterBlock) : Prop :=
  ∀ r ∈ b.registers,
    b.start_address ≤ r.address ∧
    r.address + r.register_count - 1 ≤ b.start_address + b.count - 1

/-- Concrete planner input: a two-word register at address 0. -/
def regA1 : Register :=
  { name := "a", address := 0, data_type := DataType.uint32 }

/-- Concrete planner input: a two-word register at address 1. -/
def regA2 : Register :=
  { name := "b", address := 1, data_type := DataType.uint32 }

/-- Concrete planner input: a two-word register at address 0. -/
def regB1 : Register :=
  { name := "c", address := 0, data_type := DataType.uint32 }

/-- Concrete planner input: a one-word register at address 0. -/
def regB2 : Register :=
  { name := "d", address := 0, data_type := DataType.uint16 }

end Ingeteam

namespace Ingeteam

/-! ## Theorems -/

/-- Claim C7: for every integer x in -32768..32767, decoding the 16-bit
twos-complement encoding of x with the int16 decoder returns x, and the
decoder maps a raw word below 65536 to raw - 65536 when raw is at least
32768 and to raw otherwise. -/
theorem int16_decode_encode (x : Int) (h1 : -32768 ≤ x) (h2 : x ≤ 32767) :
    decode_signed (encode16 x) = x ∧
    ∀ w : Nat, w < 65536 →
      decode_signed w = if w ≥ 32768 then (w : Int) - 65536 else (w : Int) := by
  have hand : ∀ w : Nat, w &&& 0x8000 ≠ 0 ↔ w / 32768 % 2 = 1 := by
    intro w
    have h15 : (0x8000 : Nat) = 2 ^ 15 := by norm_num
    have hpow : (2 : Nat) ^ 15 = 32768 := by norm_num
    have htp := Nat.and_two_pow w 15
    constructor
    · intro hne
      by_contra hmod
      have hbit : w.testBit 15 = false := by
        rw [Nat.testBit_to_div_mod, decide_eq_false_iff_not, hpow]
        exact hmod
      rw [h15, htp, hbit] at hne
      simp at hne
    · intro hmod
      have hbit : w.testBit 15 = true := by
        rw [Nat.testBit_to_div_mod]
        rw [decide_eq_true_eq, hpow]
        exact hmod
      rw [h15, htp, hbit]
      simp
  have hdec : ∀ w : Nat, w < 65536 →
      decode_signed w = if w ≥ 32768 then (w : Int) - 65536 else (w : Int) := by
    intro w hw
    unfold decode_signed
    rcases Nat.lt_or_ge w 32768 with hlt | hge
    · have : ¬ (w &&& 0x8000 ≠ 0) := by
        rw [hand w]
        omega
      rw [if_neg this, if_neg (by omega)]
    · have : w &&& 0x8000 ≠ 0 := by
        rw [hand w]
        omega
      rw [if_pos this, if_pos (by omega)]
  refine ⟨?_, hdec⟩
  have hmod : (0 : Int) ≤ x % 65536 := Int.emod_nonneg x (by norm_num)
  have hmodlt : x % 65536 < 65536 := Int.emod_lt_of_pos x (by norm_num)
  have henc : (encode16 x : Int) = x % 65536 := by
    unfold encode16
    exact Int.toNat_of_nonneg hmod
  have hencn : encode16 x < 65536 := by
    have := henc
    omega
  rw [hdec _ hencn]
  rcases Int.lt_or_le x 0 with hneg | hpos
  · have hx : x % 65536 = x + 65536 := by omega
    have : encode16 x ≥ 32768 := by omega
    rw [if_pos this]
    omega
  · have hx : x % 65536 = x := by omega
    have : ¬ encode16 x ≥ 32768 := by omega
    rw [if_neg this]
    omega

/-- Witness for int16_decode_encode at x = -20. -/
theorem int16_decode_encode_witness :
    decode_signed (encode16 (-20)) = -20 :=
  (int16_decode_encode (-20) (by norm_num) (by norm_num)).1

/-- Claim C8: for all 16-bit words low and high, the low-word-first uint32
decoder applied to the pair consisting of low then high returns
high shifted left 16 bits or-ed with low, that is high * 65536 + low, and
the high-word-first decoder applied to the pair consisting of high then
low returns the same combined value. -/
theorem u32_word_orders (low high : Nat) (hlow : low < 65536) :
    u32_from_words_le [low, high] 0 = (high <<< 16) ||| low ∧
    u32_from_words_le [low, high] 0 = high * 65536 + low ∧
    u32_from_words_be [high, low] 0 = u32_from_words_le [low, high] 0 := by
  have hcomb : (high <<< 16) ||| low = high * 65536 + low := by
    have hsh : high <<< 16 = 2 ^ 16 * high := by
      rw [Nat.shiftLeft_eq]
      ring
    have hl2 : low < 2 ^ 16 := by omega
    have hor := Nat.mul_add_lt_is_or hl2 high
    rw [hsh, ← hor]
    ring_nf
  refine ⟨rfl, ?_, rfl⟩
  show (high <<< 16) ||| low = high * 65536 + low
  exact hcomb

/-- Witness for u32_word_orders at low = 0x1234, high = 0x5678. -/
theorem u32_word_orders_witness :
    u32_from_words_le [0x1234, 0x5678] 0 = 0x5678 * 65536 + 0x1234 :=
  (u32_word_orders 0x1234 0x5678 (by norm_num)).2.1

/-- Claim C2: the battery derivation matches the deadband / sign-split
specification for every decoded voltage, current and raw power value, and
in particular voltage 48, current -2 and a nonzero raw power give charging
power 96, discharging power 0 and battery power -96. -/
theorem battery_power_rule :
    (∀ V I P_raw : ℚ, battery_derive V I P_raw = battery_spec V I P_raw) ∧
    battery_derive 48 (-2) 1 =
      { battery_current := -2, battery_power := -96,
        battery_charging_power := 96, battery_discharging_power := 0 } := by
  constructor
  · intro V I P
    simp only [battery_derive, battery_spec]
    by_cases hd : P = 0 ∨ |I| < 1/2
    · simp only [if_pos hd]
      norm_num
    · simp only [if_neg hd]
  · have habs : |(48 : ℚ) * (-2)| = 96 := by
      rw [abs_of_nonpos (by norm_num)]
      norm_num
    simp only [battery_derive]
    norm_num [habs]

/-- Claim C10: the PV string currents are computed as power divided by
voltage only under a strictly positive voltage guard, are 0 otherwise, and
the decoded voltages are never negative, so the division is never
performed with a zero divisor. -/
theorem pv_current_guarded (registers : List Nat) :
    (0 < pv1_voltage registers →
      pv1_current registers = pv1_power registers / pv1_voltage registers) ∧
    (¬ 0 < pv1_voltage registers → pv1_current registers = 0) ∧
    0 ≤ pv1_voltage registers ∧
    (0 < pv2_voltage registers →
      pv2_current registers = pv2_power registers / pv2_voltage registers) ∧
    (¬ 0 < pv2_voltage registers → pv2_current registers = 0) ∧
    0 ≤ pv2_voltage registers := by
  refine ⟨?_, ?_, ?_, ?_, ?_, ?_⟩
  · intro h
    unfold pv1_current pv_current_calc
    rw [if_pos h]
  · intro h
    unfold pv1_current pv_current_calc
    rw [if_neg h]
  · unfold pv1_voltage
    positivity
  · intro h
    unfold pv2_current pv_current_calc
    rw [if_pos h]
  · intro h
    unfold pv2_current pv_current_calc
    rw [if_neg h]
  · unfold pv2_voltage
    positivity

/-- Witness for pv_current_guarded on a register list holding 2300 in
every slot, so pv1 voltage decodes to 230. -/
theorem pv_current_guarded_witness :
    pv1_current (List.replicate 50 2300) =
      pv1_power (List.replicate 50 2300) /
        pv1_voltage (List.replicate 50 2300) :=
  (pv_current_guarded (List.replicate 50 2300)).1 (by
    unfold pv1_voltage
    have h38 : (List.replicate 50 2300).getD 38 0 = 2300 := rfl
    rw [h38]
    norm_num)

/-- Claim C1 counterexample: at pv total 3000, battery discharge 0 and
total loads 2000 the code reports efficiency 150, not the claimed clamped
value 100. -/
theorem system_efficiency_not_clamped :
    system_efficiency 3000 0 2000 = 150 ∧
    system_efficiency 3000 0 2000 ≠ 100 ∧
    system_efficiency 3000 0 2000 ≠ system_efficiency_spec 3000 0 2000 := by
  refine ⟨?_, ?_, ?_⟩ <;> norm_num [system_efficiency, system_efficiency_spec]

/-- Claim C1 amended: the derived system efficiency equals
(pv_total_power + battery_discharging_power) / total_loads_power * 100
without any clamp when total_loads_power is positive (so it can exceed
100), and equals 0 when total_loads_power is not positive; in particular
pv total 3000, battery discharge 0 and total loads 2000 yield 150. -/
theorem system_efficiency_formula (pv bat loads : ℚ) :
    (0 < loads → system_efficiency pv bat loads = (pv + bat) / loads * 100) ∧
    (loads ≤ 0 → system_efficiency pv bat loads = 0) ∧
    system_efficiency 3000 0 2000 = 150 := by
  refine ⟨?_, ?_, ?_⟩
  · intro h
    unfold system_efficiency
    rw [if_pos h]
  · intro h
    unfold system_efficiency
    rw [if_neg (not_lt.2 h)]
  · norm_num [system_efficiency]

/-- Witness for system_efficiency_formula at loads 2000. -/
theorem system_efficiency_formula_witness :
    system_efficiency 500 100 2000 = (500 + 100) / 2000 * 100 :=
  (system_efficiency_formula 500 100 2000).1 (by norm_num)

/-- Claim C9: for every current packed word w and schedule-type value v
up to 3, the word produced for schedule 1 has bit 0 set, bits 4-5 equal
to v and bits 6-7 equal to the schedule-2 bits of w (symmetrically for
schedule 2); when the new word differs from the current one the write of
holding register 25 is performed and the staleness timer reset to 0, so
any later poll time beyond 60 passes the staleness test. -/
theorem schedule_write_bits (w v : Nat) (last : ℚ) (hv : v ≤ 3) :
    (schedule_new_val w 1 v) &&& 1 = 1 ∧
    ((schedule_new_val w 1 v) >>> 4) &&& 3 = v ∧
    ((schedule_new_val w 1 v) >>> 6) &&& 3 = (w >>> 6) &&& 3 ∧
    (schedule_new_val w 2 v) &&& 1 = 1 ∧
    ((schedule_new_val w 2 v) >>> 6) &&& 3 = v ∧
    ((schedule_new_val w 2 v) >>> 4) &&& 3 = (w >>> 4) &&& 3 ∧
    (schedule_new_val w 1 v ≠ w →
      set_schedule_type (some w) true 1 v last =
        ⟨true, 0, some (25, schedule_new_val w 1 v)⟩) ∧
    (∀ now : ℚ, 60 < now → config_read_due now 0 = true) := by
  have hbits : ∀ a b : Nat, a ≤ 3 → b ≤ 3 →
      (1 ||| (a <<< 4) ||| (b <<< 6)) &&& 1 = 1 ∧
      ((1 ||| (a <<< 4) ||| (b <<< 6)) >>> 4) &&& 3 = a ∧
      ((1 ||| (a <<< 4) ||| (b <<< 6)) >>> 6) &&& 3 = b := by
    intro a b ha hb
    interval_cases a <;> interval_cases b <;> exact ⟨rfl, rfl, rfl⟩
  have hs1 : (w >>> 4) &&& 3 ≤ 3 := Nat.and_le_right
  have hs2 : (w >>> 6) &&& 3 ≤ 3 := Nat.and_le_right
  have h1 : schedule_new_val w 1 v =
      1 ||| (v <<< 4) ||| (((w >>> 6) &&& 3) <<< 6) := rfl
  have h2 : schedule_new_val w 2 v =
      1 ||| (((w >>> 4) &&& 3) <<< 4) ||| (v <<< 6) := rfl
  have hb1 := hbits v ((w >>> 6) &&& 3) hv hs2
  have hb2 := hbits ((w >>> 4) &&& 3) v hs1 hv
  refine ⟨?_, ?_, ?_, ?_, ?_, ?_, ?_, ?_⟩
  · rw [h1]; exact hb1.1
  · rw [h1]; exact hb1.2.1
  · rw [h1]; exact hb1.2.2
  · rw [h2]; exact hb2.1
  · rw [h2]; exact hb2.2.2
  · rw [h2]; exact hb2.2.1
  · intro hne
    show (if schedule_new_val w 1 v = w then
        (⟨true, last, none⟩ : WriteOutcome)
      else if true = true then ⟨true, 0, some (25, schedule_new_val w 1 v)⟩
      else ⟨false, last, none⟩) =
        ⟨true, 0, some (25, schedule_new_val w 1 v)⟩
    rw [if_neg hne, if_pos rfl]
  · intro now hnow
    simp only [config_read_due, decide_eq_true_eq]
    linarith

/-- Witness for schedule_write_bits at word 192 (schedule-2 bits 3),
value 2 and timer 77. -/
theorem schedule_write_bits_witness :
    ((schedule_new_val 192 1 2) >>> 4) &&& 3 = 2 ∧
    set_schedule_type (some 192) true 1 2 77 =
      ⟨true, 0, some (25, schedule_new_val 192 1 2)⟩ ∧
    config_read_due 61 0 = true := by
  have h := schedule_write_bits 192 2 77 (by norm_num)
  exact ⟨h.2.1, h.2.2.2.2.2.2.1 (by decide), h.2.2.2.2.2.2.2 61 (by norm_num)⟩

/-- Claim C5: the holding-register configuration block is re-read only
when more than 60 seconds have elapsed since its last successful read
(the staleness test), a cycle where the test does not fire leaves the
configuration state untouched whatever the transport would have
returned, a failed read also leaves it untouched, a due successful read
installs the freshly decoded values and the new timer, and along any
sequence of cycles that are failed or not due the configuration values
persist unchanged. -/
theorem config_staleness_persistence (st : ConfigState) (now : ℚ)
    (resp : Option (List Nat)) :
    (config_read_due now st.last_config_update = true ↔
      now - st.last_config_update > 60) ∧
    (¬ now - st.last_config_update > 60 → poll_config_step st now resp = st) ∧
    (poll_config_step st now none = st) ∧
    (now - st.last_config_update > 60 → ∀ regs : List Nat, regs ≠ [] →
      poll_config_step st now (some regs) = ⟨now, apply_config regs⟩) ∧
    (∀ steps : List (ℚ × Option (List Nat)),
      (∀ p ∈ steps, p.2 = none ∨ p.1 - st.last_config_update ≤ 60) →
      poll_config_run st steps = st) := by
  have hskip : ∀ (now' : ℚ) (resp' : Option (List Nat)),
      ¬ now' - st.last_config_update > 60 →
      poll_config_step st now' resp' = st := by
    intro now' resp' h
    unfold poll_config_step
    rw [if_neg h]
  have hfail : ∀ now' : ℚ, poll_config_step st now' none = st := by
    intro now'
    unfold poll_config_step
    by_cases h : now' - st.last_config_update > 60
    · rw [if_pos h]
    · rw [if_neg h]
  refine ⟨?_, hskip now resp, hfail now, ?_, ?_⟩
  · simp only [config_read_due, decide_eq_true_eq]
  · intro h regs hne
    cases regs with
    | nil => exact absurd rfl hne
    | cons a l =>
      unfold poll_config_step
      rw [if_pos h]
      rfl
  · intro steps
    induction steps with
    | nil => intro _; rfl
    | cons p rest ih =>
      intro hall
      have hp := hall p (List.mem_cons_self p rest)
      have hstep : poll_config_step st p.1 p.2 = st := by
        rcases hp with hnone | hle
        · rw [hnone]; exact hfail p.1
        · exact hskip p.1 p.2 (not_lt.2 hle)
      unfold poll_config_run at ih ⊢
      rw [List.foldl_cons, hstep]
      exact ih (fun q hq => hall q (List.mem_cons_of_mem p hq))

/-- Witness for config_staleness_persistence: a cycle at time 50 with
timer 0 is not due, so the state persists even though the transport
would return data. -/
theorem config_staleness_persistence_witness :
    poll_config_step ⟨0, apply_config []⟩ 50 (some [1, 2]) =
      ⟨0, apply_config []⟩ :=
  (config_staleness_persistence ⟨0, apply_config []⟩ 50 (some [1, 2])).2.1
    (by norm_num)

/-- The poll accumulator splits into the per-block data and error
contributions. -/
theorem poll_fold_spec (l : List (RegisterBlock × Option (List Nat)))
    (d : List (String × ℚ)) (e : List String) :
    l.foldl poll_step (d, e) =
      (d ++ l.flatMap block_data, e ++ l.flatMap block_err) := by
  induction l generalizing d e with
  | nil => simp
  | cons p rest ih =>
    rw [List.foldl_cons]
    have hstep : poll_step (d, e) p = (d ++ block_data p, e ++ block_err p) := by
      simp only [poll_step, block_data, block_err]
      by_cases h : (read_block p.1 p.2).success
      · simp [h]
      · simp [h]
    rw [hstep, ih]
    simp [List.flatMap_cons, List.append_assoc]

/-- Claim C4 counterexample: a single block whose only value fails
validation is a successfully decoded block, yet the poll reports
failure. -/
theorem poll_success_mismatch :
    (read_block vblock (some [15000])).success = true ∧
    (read_block vblock (some [15000])).data = [] ∧
    (read_register_map [(vblock, some [15000])]).success = false := by
  refine ⟨rfl, ?_, ?_⟩
  · decide
  · decide

/-- Claim C4 amended: on a transport failure for one block the poll still
merges the data of all the other blocks and records the failed block in
the error list, and the poll is reported successful if and only if some
block both read successfully and contributed at least one decoded value
to the snapshot. -/
theorem poll_partial_success (p1 p2 : List (RegisterBlock × Option (List Nat)))
    (b : RegisterBlock) :
    (∀ pairs : List (RegisterBlock × Option (List Nat)),
      (read_register_map pairs).data = pairs.flatMap block_data ∧
      ((read_register_map pairs).success = true ↔
        ∃ p ∈ pairs, (read_block p.1 p.2).success = true ∧
          (read_block p.1 p.2).data ≠ [])) ∧
    (read_register_map (p1 ++ (b, none) :: p2)).data =
      (read_register_map (p1 ++ p2)).data ∧
    (poll_fold (p1 ++ (b, none) :: p2)).2 =
      (poll_fold p1).2 ++ (read_block b none).error.getD "" ::
        (poll_fold p2).2 := by
  have hdata : ∀ pairs : List (RegisterBlock × Option (List Nat)),
      (read_register_map pairs).data = pairs.flatMap block_data := by
    intro pairs
    simp only [read_register_map, poll_fold]
    rw [poll_fold_spec]
    simp
  have hbd : block_data (b, none) = [] := by
    simp [block_data, read_block]
  have hbe : block_err (b, none) = [(read_block b none).error.getD ""] := by
    simp [block_err, read_block]
  refine ⟨?_, ?_, ?_⟩
  · intro pairs
    refine ⟨hdata pairs, ?_⟩
    simp only [read_register_map, poll_fold]
    simp only [poll_fold_spec]
    simp only [List.nil_append, decide_eq_true_eq]
    rw [List.length_pos_iff_ne_nil, ne_eq, List.flatMap_eq_nil_iff]
    push_neg
    constructor
    · rintro ⟨p, hp, hne⟩
      refine ⟨p, hp, ?_, ?_⟩
      · by_contra hs
        have : block_data p = [] := by
          simp [block_data, hs]
        exact hne this
      · intro hd
        apply hne
        simp only [block_data]
        by_cases hs : (read_block p.1 p.2).success
        · simp [hs, hd]
        · simp [hs]
    · rintro ⟨p, hp, hs, hd⟩
      refine ⟨p, hp, ?_⟩
      simp [block_data, hs]
      exact hd
  · rw [hdata, hdata]
    simp [List.flatMap_append, List.flatMap_cons, hbd]
  · simp only [poll_fold]
    rw [poll_fold_spec, poll_fold_spec, poll_fold_spec]
    simp [List.flatMap_append, List.flatMap_cons, hbe]

/-- Claim C6: validation accepts a scaled value exactly when it lies in
the unit-keyed bounds of the claim, all other units being unconditionally
valid; a block read that returns words is always a success regardless of
validation; a member value that decodes but fails validation is omitted
from the block data (given unique names in the block); a voltage of
15000 is rejected while 230 is accepted. -/
theorem validation_rules :
    (∀ (r : Register) (v : ℚ), validate_value r v = true ↔
      ((r.unit = some "V" → -1000 ≤ v ∧ v ≤ 10000) ∧
       (r.unit = some "A" → -10000 ≤ v ∧ v ≤ 10000) ∧
       (r.unit = some "W" → -1000000 ≤ v ∧ v ≤ 1000000) ∧
       (r.unit = some "%" → -10 ≤ v ∧ v ≤ 110) ∧
       (r.unit = some "°C" → -50 ≤ v ∧ v ≤ 150) ∧
       (r.unit = some "Hz" → 40 ≤ v ∧ v ≤ 70))) ∧
    (∀ (block : RegisterBlock) (registers : List Nat),
      (read_block block (some registers)).success = true) ∧
    (∀ (block : RegisterBlock) (registers : List Nat) (r : Register) (v : ℚ),
      (block.registers.map Register.name).Nodup →
      r ∈ block.registers →
      decoded_value block registers r = some v →
      validate_value r v = false →
      r.name ∉ ((read_block block (some registers)).data.map Prod.fst)) ∧
    validate_value vreg 15000 = false ∧
    validate_value vreg 230 = true := by
  refine ⟨?_, ?_, ?_, by decide, by decide⟩
  · intro r v
    by_cases hV : r.unit = some "V"
    · simp [validate_value, hV]
    · by_cases hA : r.unit = some "A"
      · simp [validate_value, hV, hA]
      · by_cases hW : r.unit = some "W"
        · simp [validate_value, hV, hA, hW]
        · by_cases hP : r.unit = some "%"
          · simp [validate_value, hV, hA, hW, hP]
          · by_cases hC : r.unit = some "°C"
            · simp [validate_value, hV, hA, hW, hP, hC]
            · by_cases hH : r.unit = some "Hz"
              · simp [validate_value, hV, hA, hW, hP, hC, hH]
              · simp [validate_value, hV, hA, hW, hP, hC, hH]
  · intro block registers
    rfl
  · intro block registers r v hnodup hmem hdec hval
    have hinj := List.inj_on_of_nodup_map hnodup
    have key : ∀ (l : List Register) (acc : List (String × ℚ)),
        (∀ r' ∈ l, r'.name = r.name → r' = r) →
        r.name ∉ acc.map Prod.fst →
        r.name ∉ (l.foldl (fun acc r' =>
          match decoded_value block registers r' with
          | none => acc
          | some value =>
            if validate_value r' value then acc ++ [(r'.name, value)]
            else acc) acc).map Prod.fst := by
      intro l
      induction l with
      | nil => intro acc _ hacc; exact hacc
      | cons r' l' ih =>
        intro acc hinj' hacc
        rw [List.foldl_cons]
        apply ih
        · intro x hx hxn
          exact hinj' x (List.mem_cons_of_mem r' hx) hxn
        · cases hm : decoded_value block registers r' with
          | none => simpa [hm] using hacc
          | some value =>
            by_cases hv : validate_value r' value = true
            · have hname : r'.name ≠ r.name := by
                intro heq
                have hrr : r' = r := hinj' r' (List.mem_cons_self r' l') heq
                rw [hrr, hdec] at hm
                have hvv : value = v := (Option.some.inj hm).symm
                rw [hrr, hvv, hval] at hv
                exact Bool.false_ne_true hv
              simp only [hm, hv, if_true]
              rw [List.map_append]
              intro hcontra
              rcases List.mem_append.1 hcontra with h1 | h2
              · exact hacc h1
              · simp at h2
                exact hname h2.symm
            · simp only [hm]
              rw [if_neg hv]
              exact hacc
    have hmain := key block.registers []
      (fun r' h1 h2 => hinj h1 hmem h2) (by simp)
    simpa [read_block] using hmain

/-- Witness for validation_rules: the rejected voltage 15000 in vblock is
omitted from the block data. -/
theorem validation_rules_witness :
    "v" ∉ ((read_block vblock (some [15000])).data.map Prod.fst) := by
  have h := validation_rules.2.2.1 vblock [15000] vreg 15000
    (by decide) (by decide) (by decide) (by decide)
  simpa [vreg] using h

/-- Every register needs at least one word. -/
theorem one_le_register_count (r : Register) : 1 ≤ r.register_count := by
  unfold Register.register_count
  cases r.data_type <;> decide

/-- Claim C3 counterexample: with max_block_size 2 and max_gap 0, two
two-word registers at addresses 0 and 1 are planned into overlapping
blocks for the same table (both spans containing address 1); with
max_block_size 1, a two-word register and a one-word register at address
0 form a single two-member block of span 2, exceeding max_block_size
although it is not a single oversized descriptor. -/
theorem get_blocks_claim_false :
    get_blocks [regA1, regA2] 2 0 =
      [⟨0, 2, [regA1], TableType.input⟩, ⟨1, 2, [regA2], TableType.input⟩] ∧
    (⟨1, 2, [regA2], TableType.input⟩ : RegisterBlock).start_address ≤
      (⟨0, 2, [regA1], TableType.input⟩ : RegisterBlock).end_address ∧
    get_blocks [regB1, regB2] 1 0 =
      [⟨0, 2, [regB1, regB2], TableType.input⟩] ∧
    1 < (⟨0, 2, [regB1, regB2], TableType.input⟩ : RegisterBlock).count ∧
    (⟨0, 2, [regB1, regB2], TableType.input⟩ :
      RegisterBlock).registers.length = 2 := by
  have hsortA : List.mergeSort [regA1, regA2] addr_le = [regA1, regA2] :=
    List.mergeSort_of_sorted (by decide)
  have hsortB : List.mergeSort [regB1, regB2] addr_le = [regB1, regB2] :=
    List.mergeSort_of_sorted (by decide)
  have hempty : List.mergeSort ([] : List Register) addr_le = [] :=
    List.mergeSort_nil
  refine ⟨?_, by decide, ?_, by decide, by decide⟩
  · unfold get_blocks plan_table
    rw [show List.filter (fun r => decide (r.table = TableType.holding))
        [regA1, regA2] = [] from rfl,
      show List.filter (fun r => ! decide (r.table = TableType.holding))
        [regA1, regA2] = [regA1, regA2] from rfl,
      hempty, hsortA]
    decide
  · unfold get_blocks plan_table
    rw [show List.filter (fun r => decide (r.table = TableType.holding))
        [regB1, regB2] = [] from rfl,
      show List.filter (fun r => ! decide (r.table = TableType.holding))
        [regB1, regB2] = [regB1, regB2] from rfl,
      hempty, hsortB]
    decide

/-- Closing the open block and appending the next register leaves the
flattened member lists extended by that register. -/
theorem plan_finish_step_flat (msize mgap : Nat) (table : TableType)
    (st : PlanState) (r : Register) :
    (plan_finish table (plan_step msize mgap table st r)).flatMap
        RegisterBlock.registers =
      (plan_finish table st).flatMap RegisterBlock.registers ++ [r] := by
  rcases st with ⟨blocks, cur⟩
  cases cur with
  | none => simp [plan_step, plan_finish]
  | some t =>
    obtain ⟨s, e, ms⟩ := t
    simp only [plan_step]
    split
    · simp [plan_finish]
    · simp [plan_finish]

/-- The flattened member lists of the planned blocks are exactly the
closed state followed by the registers still to process. -/
theorem plan_flat (msize mgap : Nat) (table : TableType) :
    ∀ (l : List Register) (st : PlanState),
      (plan_finish table
          (l.foldl (plan_step msize mgap table) st)).flatMap
          RegisterBlock.registers =
        (plan_finish table st).flatMap RegisterBlock.registers ++ l := by
  intro l
  induction l with
  | nil => intro st; simp
  | cons r l' ih =>
    intro st
    rw [List.foldl_cons, ih, plan_finish_step_flat]
    simp

/-- Unfolding run_end over a cons. -/
theorem run_end_cons (e : Nat) (r : Register) (l : List Register) :
    run_end e (r :: l) =
      run_end (max e (r.address + r.register_count - 1)) l := rfl

/-- Unfolding run_end over an appended element. -/
theorem run_end_append_one (e : Nat) (l : List Register) (r : Register) :
    run_end e (l ++ [r]) =
      max (run_end e l) (r.address + r.register_count - 1) := by
  unfold run_end
  rw [List.foldl_append]
  rfl

/-- A register within max_gap of the running span end can be appended to
a member list without breaking the gap condition. -/
theorem gap_ok_append (mgap : Nat) :
    ∀ (l : List Register) (e : Nat) (r : Register),
      gap_ok mgap e l = true → r.address ≤ run_end e l + mgap →
      gap_ok mgap e (l ++ [r]) = true := by
  intro l
  induction l with
  | nil =>
    intro e r _ hr
    have he : run_end e [] = e := rfl
    rw [he] at hr
    simp [gap_ok, hr]
  | cons x xs ih =>
    intro e r h hr
    rw [List.cons_append]
    unfold gap_ok at h ⊢
    rw [Bool.and_eq_true] at h ⊢
    refine ⟨h.1, ih _ r h.2 ?_⟩
    rw [run_end_cons] at hr
    exact hr

/-- A block closed from a well-formed open state satisfies the span and
gap invariants. -/
theorem closed_block_ok (mgap : Nat) (table : TableType) (s e : Nat)
    (ms : List Register) (r0 : Register) (rs : List Register)
    (hms : ms = r0 :: rs) (hse : s ≤ e)
    (hspan : ∀ r ∈ ms, s ≤ r.address ∧
      r.address + r.register_count - 1 ≤ e)
    (hgap : gap_ok mgap (r0.address + r0.register_count - 1) rs = true) :
    block_ok ⟨s, e - s + 1, ms, table⟩ ∧
      block_gap_ok mgap ⟨s, e - s + 1, ms, table⟩ = true := by
  constructor
  · intro r hr
    have hb := hspan r hr
    have hb2 := hb.2
    refine ⟨hb.1, ?_⟩
    show r.address + r.register_count - 1 ≤ s + (e - s + 1) - 1
    omega
  · simp only [block_gap_ok, hms]
    exact hgap

/-- The greedy fold preserves the span and gap invariants of every
closed block and of the open state. -/
theorem plan_invariant (msize mgap : Nat) (table : TableType) :
    ∀ (l : List Register) (st : PlanState),
      List.Pairwise (fun a b : Register => a.address ≤ b.address) l →
      (∀ b ∈ st.blocks, block_ok b ∧ block_gap_ok mgap b = true) →
      (match st.cur with
       | none => True
       | some (s, e, ms) =>
         (∀ r ∈ l, s ≤ r.address) ∧
         ∃ r0 rs, ms = r0 :: rs ∧ s ≤ e ∧
           (∀ r ∈ ms, s ≤ r.address ∧
             r.address + r.register_count - 1 ≤ e) ∧
           e = run_end (r0.address + r0.register_count - 1) rs ∧
           gap_ok mgap (r0.address + r0.register_count - 1) rs = true) →
      ∀ b ∈ plan_finish table (l.foldl (plan_step msize mgap table) st),
        block_ok b ∧ block_gap_ok mgap b = true := by
  intro l
  induction l with
  | nil =>
    intro st hpair hblocks hcur
    rcases st with ⟨blocks, cur⟩
    cases cur with
    | none =>
      intro b hb
      exact hblocks b (by simpa [plan_finish] using hb)
    | some t =>
      obtain ⟨s, e, ms⟩ := t
      obtain ⟨-, r0, rs, hms, hse, hspan, -, hgap⟩ := hcur
      intro b hb
      simp only [List.foldl_nil, plan_finish] at hb
      rcases List.mem_append.1 hb with h1 | h2
      · exact hblocks b h1
      · have hbe : b = ⟨s, e - s + 1, ms, table⟩ := by simpa using h2
        subst hbe
        exact closed_block_ok mgap table s e ms r0 rs hms hse hspan hgap
  | cons r l' ih =>
    intro st hpair hblocks hcur
    rw [List.foldl_cons]
    have hhead : ∀ x ∈ l', r.address ≤ x.address :=
      (List.pairwise_cons.1 hpair).1
    have hpair' : List.Pairwise (fun a b : Register => a.address ≤ b.address) l' :=
      (List.pairwise_cons.1 hpair).2
    have hre : r.address ≤ r.address + r.register_count - 1 := by
      have := one_le_register_count r
      omega
    rcases st with ⟨blocks, cur⟩
    cases cur with
    | none =>
      apply ih _ hpair' (by simpa [plan_step] using hblocks)
      simp only [plan_step]
      refine ⟨hhead, r, [], rfl, hre, ?_, rfl, rfl⟩
      intro x hx
      have : x = r := by simpa using hx
      subst this
      exact ⟨le_refl _, le_refl _⟩
    | some t =>
      obtain ⟨s, e, ms⟩ := t
      obtain ⟨hrem, r0, rs, hms, hse, hspan, hrun, hgap⟩ := hcur
      have hsr : s ≤ r.address := hrem r (List.mem_cons_self r l')
      by_cases hc : ((r.address : Int) - (e : Int) ≤ (mgap : Int) ∧
          ((r.address + r.register_count - 1 : Nat) : Int) - (s : Int) + 1 ≤
            (msize : Int))
      · have hstep : plan_step msize mgap table ⟨blocks, some (s, e, ms)⟩ r =
            ⟨blocks, some (s, max e (r.address + r.register_count - 1),
              ms ++ [r])⟩ := by
          simp only [plan_step, if_pos hc]
        rw [hstep]
        apply ih _ hpair'
        · exact hblocks
        · simp only []
          refine ⟨?_, r0, rs ++ [r], by simp [hms], ?_, ?_, ?_, ?_⟩
          · intro x hx
            exact le_trans hsr (hhead x hx)
          · exact le_trans hse (le_max_left _ _)
          · intro x hx
            rcases List.mem_append.1 hx with h1 | h2
            · have hb := hspan x h1
              exact ⟨hb.1, le_trans hb.2 (le_max_left _ _)⟩
            · have : x = r := by simpa using h2
              subst this
              exact ⟨hsr, le_max_right _ _⟩
          · rw [run_end_append_one, ← hrun]
          · apply gap_ok_append mgap rs _ r hgap
            rw [← hrun]
            have hc1 := hc.1
            omega
      · have hstep : plan_step msize mgap table ⟨blocks, some (s, e, ms)⟩ r =
            ⟨blocks ++ [⟨s, e - s + 1, ms, table⟩],
              some (r.address, r.address + r.register_count - 1, [r])⟩ := by
          simp only [plan_step, if_neg hc]
        rw [hstep]
        apply ih _ hpair'
        · intro b hb
          rcases List.mem_append.1 hb with h1 | h2
          · exact hblocks b h1
          · have hbe : b = ⟨s, e - s + 1, ms, table⟩ := by simpa using h2
            subst hbe
            exact closed_block_ok mgap table s e ms r0 rs hms hse hspan hgap
        · simp only []
          refine ⟨hhead, r, [], rfl, hre, ?_, rfl, rfl⟩
          intro x hx
          have : x = r := by simpa using hx
          subst this
          exact ⟨le_refl _, le_refl _⟩

/-- Transitivity of the planner sort key. -/
theorem addr_le_trans (a b c : Register) :
    addr_le a b → addr_le b c → addr_le a c := by
  simp only [addr_le, decide_eq_true_eq]
  omega

/-- Totality of the planner sort key. -/
theorem addr_le_total (a b : Register) : addr_le a b || addr_le b a := by
  simp only [addr_le, Bool.or_eq_true, decide_eq_true_eq]
  omega

/-- Every block produced by one table pass satisfies the span and gap
invariants. -/
theorem plan_table_ok (msize mgap : Nat) (table : TableType)
    (regs : List Register) :
    ∀ b ∈ plan_table msize mgap table regs,
      block_ok b ∧ block_gap_ok mgap b = true := by
  have hsorted := List.sorted_mergeSort addr_le_trans addr_le_total regs
  have hpair : List.Pairwise (fun a b : Register => a.address ≤ b.address)
      (regs.mergeSort addr_le) := by
    refine hsorted.imp ?_
    intro a b h
    simpa [addr_le] using h
  unfold plan_table plan_sorted
  exact plan_invariant msize mgap table (regs.mergeSort addr_le) ⟨[], none⟩
    hpair (by simp) (by simp)

/-- Claim C3 amended: for every register list and every max_block_size
at least 1 and max_gap, the produced blocks partition the descriptors
(the concatenation of all member lists is a permutation of the input, so
every descriptor is a member of exactly one block occurrence), every
member span lies within the span of its own block, and within each block
every member after the first starts at most max_gap beyond the running
span end of the members before it; blocks for the same table may overlap
and a multi-member block may exceed max_block_size, as the counterexample
shows. -/
theorem block_planner_invariants (regs : List Register) (msize mgap : Nat)
    (hm : 1 ≤ msize) :
    ((get_blocks regs msize mgap).flatMap RegisterBlock.registers).Perm
        regs ∧
    (∀ b ∈ get_blocks regs msize mgap, block_ok b) ∧
    (∀ b ∈ get_blocks regs msize mgap, block_gap_ok mgap b = true) := by
  refine ⟨?_, ?_, ?_⟩
  · unfold get_blocks plan_table plan_sorted
    rw [List.flatMap_append, plan_flat, plan_flat]
    simp only [plan_finish, List.flatMap_nil, List.nil_append]
    exact List.Perm.trans
      (List.Perm.append (List.mergeSort_perm _ _) (List.mergeSort_perm _ _))
      (List.filter_append_perm _ regs)
  · intro b hb
    rcases List.mem_append.1 hb with h | h
    · exact (plan_table_ok msize mgap TableType.holding _ b h).1
    · exact (plan_table_ok msize mgap TableType.input _ b h).1
  · intro b hb
    rcases List.mem_append.1 hb with h | h
    · exact (plan_table_ok msize mgap TableType.holding _ b h).2
    · exact (plan_table_ok msize mgap TableType.input _ b h).2

/-- Witness for block_planner_invariants on the two-register input of the
counterexample. -/
theorem block_planner_invariants_witness :
    ((get_blocks [regA1, regA2] 2 0).flatMap RegisterBlock.registers).Perm
      [regA1, regA2] :=
  (block_planner_invariants [regA1, regA2] 2 0 (by norm_num)).1

end Ingeteam
